import Mathlib

/-!
# Verification of the hybrid legal-search engine

Shallow embedding of the retrieval core of `s5_LegalSearchEngine.py` and the
strategy selector of `s61_QueryClassifier.py`:

* `vector_search` (FAISS-backed dense retrieval; the FAISS index and the
  embedding provider are external libraries, modelled as an opaque function
  returning `(index, distance)` pairs),
* `keyword_search` (BM25 lexical retrieval; `rank_bm25` is an external
  library, modelled as an opaque score vector),
* `reciprocal_rank_fusion`,
* `filter_by_doc_name` (domain filter),
* `rerank` (cross-encoder reranking; the `CrossEncoder` model is external,
  modelled as an opaque pairwise score function),
* `hybrid_search` (the orchestrator, with progress reporting modelled as an
  explicit message log),
* `get_search_strategy` (query-intent label → strategy configuration).

Python floats are modelled as exact rationals, Python dicts as
insertion-ordered association lists, Python's stable `sorted` as
`List.insertionSort` (which is stable), and Python list indexing (including
negative, from-the-end indexing) as `pyGet`.
-/

/-- The `metadata` sub-dictionary of a chunk record (only `doc_name` is read
by the search core, in `filter_by_doc_name`). -/
structure ChunkMeta where
  doc_name : String
  page : Nat := 1
deriving DecidableEq

/-- One entry of `self.metadata`: a chunk record
`{chunk_id, content, metadata}` as consumed by the search engine. -/
structure Item where
  chunk_id : String
  content : String
  metadata : ChunkMeta
deriving DecidableEq

instance : Inhabited Item := ⟨⟨"", "", ⟨"", 1⟩⟩⟩

/-- A retrieval result dictionary as built by `vector_search` /
`keyword_search` and extended by `reciprocal_rank_fusion` / `rerank`.
The optional fields model dictionary keys that are only present after the
corresponding stage has run. -/
structure Result where
  rank : Nat
  chunk_id : String
  content : String
  metadata : ChunkMeta
  score : ℚ
  search_type : String
  rrf_score : Option ℚ := none
  rerank_score : Option ℚ := none
deriving DecidableEq

instance : Inhabited Result := ⟨⟨0, "", "", ⟨"", 1⟩, 0, "", none, none⟩⟩

/-! ## Python helpers -/

/-- Python list indexing `l[i]`: a negative index counts from the end;
`none` models an `IndexError`. -/
def pyGet (l : List α) (i : ℤ) : Option α :=
  if i < 0 then
    let j : ℤ := (l.length : ℤ) + i
    if 0 ≤ j then l.get? j.toNat else none
  else l.get? i.toNat

/-- `dict.get(key, 0)` on an insertion-ordered association list. -/
def dictGet (d : List (String × ℚ)) (key : String) : ℚ :=
  match d.find? (fun p => p.1 == key) with
  | some p => p.2
  | none => 0

/-- Membership test `key in dict`. -/
def dictMem (d : List (String × α)) (key : String) : Bool :=
  d.any (fun p => p.1 == key)

/-- `dict[key] = v`: overwrite in place if the key is present (keeping its
position, as Python dicts do), otherwise append. -/
def dictInsert (d : List (String × α)) (key : String) (v : α) : List (String × α) :=
  if dictMem d key then
    d.map (fun p => if p.1 == key then (key, v) else p)
  else d ++ [(key, v)]

/-- `dict[key]` lookup; the default is never reached when the key is present
(a missing key would be a Python `KeyError`). -/
def dictFind (d : List (String × Result)) (key : String) : Result :=
  match d.find? (fun p => p.1 == key) with
  | some p => p.2
  | none => default

/-! ## Strategy selector (`s61_QueryClassifier.get_search_strategy`) -/

/-- `StrategyConfig = {search_method, top_k}`. -/
structure StrategyConfig where
  search_method : String
  top_k : Nat
deriving DecidableEq

/-- The `strategies` table of `get_search_strategy`. -/
def strategies : List (String × StrategyConfig) :=
  [ ("법조문_조회", ⟨"keyword", 5⟩),
    ("일반_정보_검색", ⟨"hybrid", 10⟩),
    ("상황별_컨설팅", ⟨"hybrid", 15⟩),
    ("절차_안내", ⟨"hybrid", 10⟩),
    ("문서_생성", ⟨"hybrid", 20⟩),
    ("비교_분석", ⟨"hybrid", 12⟩) ]

/-- `strategies.get(query_type, strategies["일반_정보_검색"])`.  The inner
fallback of the second lookup is unreachable because the default key is in
the table. -/
def get_search_strategy (query_type : String) : StrategyConfig :=
  match strategies.find? (fun p => p.1 == query_type) with
  | some p => p.2
  | none =>
    match strategies.find? (fun p => p.1 == "일반_정보_검색") with
    | some p => p.2
    | none => ⟨"hybrid", 10⟩

/-! ## Dense retrieval (`vector_search`) -/

/-- `score = float(1 / (1 + distance))` as computed inside `vector_search`. -/
def distanceScore (distance : ℚ) : ℚ := 1 / (1 + distance)

/-- The result dictionary built in the `vector_search` loop body. -/
def mkVectorResult (rank : Nat) (item : Item) (distance : ℚ) : Result :=
  { rank := rank, chunk_id := item.chunk_id, content := item.content,
    metadata := item.metadata, score := distanceScore distance,
    search_type := "vector" }

/-- The `for idx, distance in zip(indices[0], distances[0])` loop of
`vector_search`: skip an index `>= len(self.metadata)`, resolve
`self.metadata[idx]` with Python indexing (negative indices count from the
end; an `IndexError` is `none`), append with a 1-based rank, and break once
`len(results) >= top_k`. -/
def vectorLoop (metadata : List Item) (top_k : Nat) :
    List (ℤ × ℚ) → List Result → Option (List Result)
  | [], results => some results
  | (idx, distance) :: rest, results =>
    if (metadata.length : ℤ) ≤ idx then vectorLoop metadata top_k rest results
    else
      match pyGet metadata idx with
      | none => none
      | some item =>
        let results' := results ++ [mkVectorResult (results.length + 1) item distance]
        if top_k ≤ results'.length then some results'
        else vectorLoop metadata top_k rest results'

/-- `vector_search(query, top_k)`: the embedding provider composed with
`faiss_index.search` is the opaque `faissSearch`, asked for
`search_k = top_k * 10` candidates. -/
def vector_search (faissSearch : String → Nat → List (ℤ × ℚ))
    (metadata : List Item) (query : String) (top_k : Nat) : Option (List Result) :=
  vectorLoop metadata top_k (faissSearch query (top_k * 10)) []

/-! ## Lexical retrieval (`keyword_search`) -/

/-- Comparison of positions by their BM25 score, the key of
`np.argsort(scores)` (ascending). -/
def scoreLeAt (scores : List ℚ) (i j : Nat) : Prop :=
  scores.getD i 0 ≤ scores.getD j 0

instance (scores : List ℚ) : DecidableRel (scoreLeAt scores) :=
  fun i j => inferInstanceAs (Decidable (scores.getD i 0 ≤ scores.getD j 0))

instance (scores : List ℚ) : IsTotal Nat (scoreLeAt scores) :=
  ⟨fun _ _ => le_total _ _⟩

instance (scores : List ℚ) : IsTrans Nat (scoreLeAt scores) :=
  ⟨fun _ _ _ h1 h2 => le_trans h1 h2⟩

/-- `np.argsort(scores)[::-1]`: positions sorted by ascending score, then
reversed (ties are resolved in an unspecified order by numpy; any argsort
yields the properties proved below). -/
def argsortDesc (scores : List ℚ) : List Nat :=
  (List.insertionSort (scoreLeAt scores) (List.range scores.length)).reverse

/-- The result dictionary built in the `keyword_search` loop body. -/
def mkKeywordResult (rank : Nat) (item : Item) (score : ℚ) : Result :=
  { rank := rank, chunk_id := item.chunk_id, content := item.content,
    metadata := item.metadata, score := score, search_type := "keyword" }

/-- The `for idx in ranked_indices` loop of `keyword_search`: skip scores
`<= 0`, append with a 1-based rank, break once `len(results) >= top_k`. -/
def keywordLoop (scores : List ℚ) (metadata : List Item) (top_k : Nat) :
    List Nat → List Result → List Result
  | [], results => results
  | idx :: rest, results =>
    if scores.getD idx 0 ≤ 0 then keywordLoop scores metadata top_k rest results
    else
      let results' := results ++
        [mkKeywordResult (results.length + 1) (metadata.getD idx default) (scores.getD idx 0)]
      if top_k ≤ results'.length then results'
      else keywordLoop scores metadata top_k rest results'

/-- `keyword_search(query, top_k)`, parametrised by the score vector
`scores = self.bm25.get_scores(self.tokenize_korean(query))` (the tokenizer
and the BM25 model `rank_bm25.BM25Okapi` are external; quantifying over
every score vector covers every query). -/
def keyword_search (scores : List ℚ) (metadata : List Item) (top_k : Nat) :
    List Result :=
  keywordLoop scores metadata top_k (argsortDesc scores) []

/-! ## Reciprocal rank fusion -/

/-- One list's contribution `1 / (k + rank)` for a 1-based rank. -/
def rrfContribution (k rank : Nat) : ℚ := 1 / ((k : ℚ) + (rank : ℚ))

/-- The score-accumulation loop
`chunk_scores[chunk_id] = chunk_scores.get(chunk_id, 0) + rrf_score`,
run once per input list. -/
def rrfAccumScores (k : Nat) (results : List Result) (d : List (String × ℚ)) :
    List (String × ℚ) :=
  results.foldl
    (fun d r => dictInsert d r.chunk_id (dictGet d r.chunk_id + rrfContribution k r.rank)) d

/-- The payload loop over `vector_results`: `chunk_data[chunk_id] = result`
(unconditional overwrite). -/
def rrfVectorData (results : List Result) (d : List (String × Result)) :
    List (String × Result) :=
  results.foldl (fun d r => dictInsert d r.chunk_id r) d

/-- The payload loop over `keyword_results`:
`if chunk_id not in chunk_data: chunk_data[chunk_id] = result`. -/
def rrfKeywordData (results : List Result) (d : List (String × Result)) :
    List (String × Result) :=
  results.foldl (fun d r => if dictMem d r.chunk_id then d else dictInsert d r.chunk_id r) d

/-- The ordering of `sorted(chunk_scores.items(), key=lambda x: x[1],
reverse=True)`. -/
def scoreGe (x y : String × ℚ) : Prop := y.2 ≤ x.2

instance : DecidableRel scoreGe :=
  fun x y => inferInstanceAs (Decidable (y.2 ≤ x.2))

instance : IsTotal (String × ℚ) scoreGe := ⟨fun x y => le_total y.2 x.2⟩

instance : IsTrans (String × ℚ) scoreGe := ⟨fun _ _ _ h1 h2 => le_trans h2 h1⟩

/-- The `for i, (chunk_id, score) in enumerate(sorted_chunks)` emission loop:
copy the stored payload, reassign `rank = i + 1`, attach `rrf_score`, tag
`search_type = "hybrid"`. -/
def rrfEmit (chunk_data : List (String × Result)) : Nat → List (String × ℚ) → List Result
  | _, [] => []
  | i, (cid, score) :: rest =>
    { dictFind chunk_data cid with
        rank := i + 1, rrf_score := some score, search_type := "hybrid" }
      :: rrfEmit chunk_data (i + 1) rest

/-- `reciprocal_rank_fusion(vector_results, keyword_results, k=60)`.
Python's `sorted` is a stable sort, modelled by the (stable)
`List.insertionSort`. -/
def reciprocal_rank_fusion (vector_results keyword_results : List Result)
    (k : Nat) : List Result :=
  let chunk_scores := rrfAccumScores k keyword_results (rrfAccumScores k vector_results [])
  let chunk_data := rrfKeywordData keyword_results (rrfVectorData vector_results [])
  let sorted_chunks := List.insertionSort scoreGe chunk_scores
  rrfEmit chunk_data 0 sorted_chunks

/-! ## Domain filter (`filter_by_doc_name`) -/

/-- Contiguous substring test on character lists. -/
def containsSub (p : List Char) : List Char → Bool
  | [] => p.isEmpty
  | c :: rest => p.isPrefixOf (c :: rest) || containsSub p rest

/-- Python `str.lower()` restricted to what the engine's patterns exercise
(ASCII letters; Hangul is untouched by lowercasing), as a character list. -/
def pyLower (s : String) : List Char := s.data.map Char.toLower

/-- `re.search(pat, text, re.IGNORECASE)` for the patterns actually used in
`doc_mapping`, which are all alternations of literals: at least one literal
occurs as a (case-insensitive) substring. -/
def patMatch (pats : List String) (text : String) : Bool :=
  pats.any (fun p => containsSub (pyLower p) (pyLower text))

/-- The ordered `doc_mapping` rule table
(query-pattern, doc-name-pattern), most specific first. -/
def doc_mapping : List (List String × List String) :=
  [ (["시행규칙"], ["시행규칙"]),
    (["시행령"], ["시행령"]),
    (["AURI", "해석례"], ["AURI", "해석례"]),
    (["건설산업기본법"], ["건설산업기본법"]),
    (["건설기술"], ["건설기술"]),
    (["산업안전"], ["산업안전"]),
    (["국토"], ["국토"]) ]

/-- Rule selection: the first rule whose query-pattern matches the query
fixes the target pattern (no exclusion); otherwise the default is the base
act `건축법` with exclusion `시행령|시행규칙`. -/
def selectPatterns (query : String) : List String × Option (List String) :=
  match doc_mapping.find? (fun m => patMatch m.1 query) with
  | some m => (m.2, none)
  | none => (["건축법"], some ["시행령", "시행규칙"])

/-- The per-result keep condition of the filtering loop: `doc_name` matches
the target pattern and, when an exclusion pattern is set, does not match it. -/
def keepResult (query : String) (r : Result) : Bool :=
  let tp := selectPatterns query
  patMatch tp.1 r.metadata.doc_name &&
    !(match tp.2 with
      | some e => patMatch e r.metadata.doc_name
      | none => false)

/-- `filter_by_doc_name(results, query)`:
`return filtered if filtered else results` — fail-open on an empty filter
outcome. -/
def filter_by_doc_name (results : List Result) (query : String) : List Result :=
  let filtered := results.filter (keepResult query)
  if filtered.isEmpty then results else filtered

/-! ## Reranking (`rerank`) -/

/-- Ordering of `sorted(results, key=lambda x: x['rerank_score'],
reverse=True)` (every element has `rerank_score` set at that point). -/
def rerankScoreGe (x y : Result) : Prop :=
  y.rerank_score.getD 0 ≤ x.rerank_score.getD 0

instance : DecidableRel rerankScoreGe :=
  fun x y => inferInstanceAs (Decidable (y.rerank_score.getD 0 ≤ x.rerank_score.getD 0))

instance : IsTotal Result rerankScoreGe := ⟨fun _ _ => le_total _ _⟩

instance : IsTrans Result rerankScoreGe := ⟨fun _ _ _ h1 h2 => le_trans h2 h1⟩

/-- The `for i, r in enumerate(reranked): r['rank'] = i + 1` loop (started
at rank `i` so the recursion is uniform; `rerank` calls it with `1`). -/
def rerankAssign : Nat → List Result → List Result
  | _, [] => []
  | i, r :: rest => { r with rank := i } :: rerankAssign (i + 1) rest

/-- The full reranked list before truncation: every candidate with
`rerank_score` attached (`result['rerank_score'] = float(scores[i])`),
stably sorted descending, ranks reassigned `1..len`.  Because the Python
code mutates the candidate dictionaries in place, this list is exactly the
post-call state of the caller's candidates (up to the list order seen by
the caller). -/
def rerankAll (scorer : String → String → ℚ) (query : String)
    (results : List Result) : List Result :=
  let scored := results.map (fun r => { r with rerank_score := some (scorer query r.content) })
  rerankAssign 1 (List.insertionSort rerankScoreGe scored)

/-- `rerank(query, results, top_k)`: empty input returns immediately
(before any scorer call); otherwise `return reranked[:top_k]`. -/
def rerank (scorer : String → String → ℚ) (query : String)
    (results : List Result) (top_k : Nat) : List Result :=
  if results.isEmpty then results
  else (rerankAll scorer query results).take top_k

/-! ## Orchestrator (`hybrid_search`) -/

/-- The engine state: the chunk list plus the three external collaborators
(embedding + FAISS, tokenizer + BM25, cross-encoder), fixed functions for a
fixed loaded engine. -/
structure Engine where
  metadata : List Item
  faissSearch : String → Nat → List (ℤ × ℚ)
  bm25Scores : String → List ℚ
  rerankScore : String → String → ℚ

/-- `update_progress(msg)`: forwards `msg` to the callback when one is
supplied.  The callback only consumes strings, so it is modelled as an
emitted message log. -/
def update_progress (hasCallback : Bool) (msg : String) (log : List String) :
    List String :=
  if hasCallback then log ++ [msg] else log

/-- `hybrid_search(query, top_k, use_rerank, use_bm25, progress_callback)`:
dense retrieval, optional lexical retrieval + RRF fusion (with the default
`k = 60`), domain filter, then either reranking of the first 10 filtered
candidates or plain truncation.  Returns the result list (`none` models an
uncaught `IndexError` from dense retrieval) together with the log of
progress messages. -/
def hybrid_search (e : Engine) (query : String) (top_k : Nat)
    (use_rerank use_bm25 hasCallback : Bool) :
    Option (List Result) × List String :=
  let log1 := update_progress hasCallback "🔍 벡터 검색 중..." []
  match vector_search e.faissSearch e.metadata query top_k with
  | none => (none, log1)
  | some vector_results =>
    let log2 := update_progress hasCallback
      ("  ✓ 벡터 검색 완료: " ++ toString vector_results.length ++ "개") log1
    let step : List Result × List String :=
      if use_bm25 then
        let log3 := update_progress hasCallback "🔍 키워드 검색 중..." log2
        let keyword_results := keyword_search (e.bm25Scores query) e.metadata top_k
        let log4 := update_progress hasCallback
          ("  ✓ 키워드 검색 완료: " ++ toString keyword_results.length ++ "개") log3
        let log5 := update_progress hasCallback "🔀 검색 결과 융합 중..." log4
        (reciprocal_rank_fusion vector_results keyword_results 60, log5)
      else (vector_results, log2)
    let hybrid_results := step.1
    let log6 := update_progress hasCallback "📂 문서 필터링 중..." step.2
    let filtered_results := filter_by_doc_name hybrid_results query
    let log7 := update_progress hasCallback
      ("  ✓ " ++ toString filtered_results.length ++ "개 문서 선별") log6
    if use_rerank then
      let log8 := update_progress hasCallback "🎯 Reranker로 정밀 분석 중..." log7
      (some (rerank e.rerankScore query (filtered_results.take 10) top_k), log8)
    else
      (some (filtered_results.take top_k), log7)

/-! ## C6: strategy default safety -/

/-- C6: a query-type label outside the closed label set resolves to the same
configuration as the documented default label `일반_정보_검색`, namely
`{search_method = "hybrid", top_k = 10}`; the lookup is a total function
(Python's `dict.get` with a default never raises). -/
theorem get_search_strategy_unknown_label_default (label : String)
    (h : label ∉ strategies.map Prod.fst) :
    get_search_strategy label = get_search_strategy "일반_정보_검색" ∧
    get_search_strategy label = ⟨"hybrid", 10⟩ := by
  have hfind : strategies.find? (fun p => p.1 == label) = none := by
    rw [List.find?_eq_none]
    intro p hp hb
    exact h (List.mem_map.mpr ⟨p, hp, eq_of_beq hb⟩)
  constructor
  · rw [get_search_strategy, hfind]
    rfl
  · rw [get_search_strategy, hfind]
    rfl

/-- Witness for C6 at the concrete unknown label `"기타_질문"`. -/
theorem get_search_strategy_unknown_label_default_witness :
    get_search_strategy "기타_질문" = get_search_strategy "일반_정보_검색" ∧
    get_search_strategy "기타_질문" = ⟨"hybrid", 10⟩ :=
  get_search_strategy_unknown_label_default "기타_질문" (by decide)

/-! ## C7: distance-to-score conversion -/

/-- C7: the conversion `score = 1 / (1 + distance)` used by `vector_search`
is strictly decreasing in the distance, always lies in `(0, 1]` for a
nonnegative distance, and is defined at distance `0` (where it equals `1`). -/
theorem distanceScore_monotone_bounded :
    (∀ d1 d2 : ℚ, 0 ≤ d1 → d1 < d2 → distanceScore d2 < distanceScore d1) ∧
    (∀ d : ℚ, 0 ≤ d → 0 < distanceScore d ∧ distanceScore d ≤ 1) ∧
    distanceScore 0 = 1 := by
  refine ⟨fun d1 d2 h0 hlt => ?_, fun d h0 => ⟨?_, ?_⟩, by norm_num [distanceScore]⟩
  · have h1 : (0 : ℚ) < 1 + d1 := by linarith
    exact div_lt_div_of_pos_left one_pos h1 (by linarith)
  · have h1 : (0 : ℚ) < 1 + d := by linarith
    exact div_pos one_pos h1
  · have h1 : (0 : ℚ) < 1 + d := by linarith
    rw [distanceScore, div_le_one h1]
    linarith

/-- Witness for C7 at the concrete distances `0` and `1`. -/
theorem distanceScore_monotone_bounded_witness :
    distanceScore 1 < distanceScore 0 ∧
    (0 < distanceScore 1 ∧ distanceScore 1 ≤ 1) ∧
    distanceScore 0 = 1 :=
  ⟨distanceScore_monotone_bounded.1 0 1 le_rfl one_pos,
   distanceScore_monotone_bounded.2.1 1 (by norm_num),
   distanceScore_monotone_bounded.2.2⟩

/-! ## C4: domain-filter fail-open -/

/-- C4: whenever applying the selected include pattern (and exclusion
pattern, when set) would leave zero surviving results, `filter_by_doc_name`
returns its input unchanged. -/
theorem filter_by_doc_name_fail_open (results : List Result) (query : String)
    (h : results.filter (keepResult query) = []) :
    filter_by_doc_name results query = results := by
  simp only [filter_by_doc_name, h, List.isEmpty_nil, if_true]

/-- Witness for C4, the spec's scenario: the query `"시행령"` selects the
pattern `시행령`, and over a result set holding only a base-act chunk
(`doc_name = "건축법"`, no `시행령`) the filter fails open and returns the
input set. -/
theorem filter_by_doc_name_fail_open_witness :
    [({ rank := 1, chunk_id := "c1", content := "제1조",
        metadata := ⟨"건축법", 1⟩, score := 1, search_type := "hybrid" } : Result)].filter
      (keepResult "시행령") = [] ∧
    filter_by_doc_name
      [{ rank := 1, chunk_id := "c1", content := "제1조",
         metadata := ⟨"건축법", 1⟩, score := 1, search_type := "hybrid" }] "시행령" =
      [{ rank := 1, chunk_id := "c1", content := "제1조",
         metadata := ⟨"건축법", 1⟩, score := 1, search_type := "hybrid" }] :=
  ⟨by decide, filter_by_doc_name_fail_open _ _ (by decide)⟩

/-! ## Rerank lemmas -/

theorem rerankAssign_length (i : Nat) (l : List Result) :
    (rerankAssign i l).length = l.length := by
  induction l generalizing i with
  | nil => rfl
  | cons r rest ih => simp [rerankAssign, ih]

theorem rerankAll_length (scorer : String → String → ℚ) (query : String)
    (results : List Result) :
    (rerankAll scorer query results).length = results.length := by
  rw [rerankAll, rerankAssign_length,
    (List.perm_insertionSort rerankScoreGe _).length_eq, List.length_map]

theorem rerankAssign_ranks (i : Nat) (l : List Result) :
    (rerankAssign i l).map Result.rank = List.range' i l.length := by
  induction l generalizing i with
  | nil => rfl
  | cons r rest ih => simp [rerankAssign, ih, List.range'_succ]

theorem rerankAssign_mem (i : Nat) (l : List Result) (r : Result)
    (h : r ∈ rerankAssign i l) : ∃ s ∈ l, r = { s with rank := r.rank } := by
  induction l generalizing i with
  | nil => cases h
  | cons s rest ih =>
    rcases List.mem_cons.mp h with heq | hmem
    · exact ⟨s, List.mem_cons_self s rest, by rw [heq]⟩
    · obtain ⟨s', hs', heq⟩ := ih (i + 1) hmem
      exact ⟨s', List.mem_cons_of_mem s hs', heq⟩

theorem rerankAssign_erase_rank (i : Nat) (l : List Result) :
    (rerankAssign i l).map (fun r => { r with rank := 0 }) =
      l.map (fun r => { r with rank := 0 }) := by
  induction l generalizing i with
  | nil => rfl
  | cons r rest ih => simp [rerankAssign, ih]

theorem rerankAll_rerank_score (scorer : String → String → ℚ) (query : String)
    (results : List Result) :
    ∀ r ∈ rerankAll scorer query results,
      r.rerank_score = some (scorer query r.content) := by
  intro r hr
  obtain ⟨s, hs, heq⟩ := rerankAssign_mem 1 _ r hr
  have hs' : s ∈ results.map
      (fun x => { x with rerank_score := some (scorer query x.content) }) :=
    ((List.perm_insertionSort rerankScoreGe _).mem_iff).mp hs
  obtain ⟨orig, _, rfl⟩ := List.mem_map.mp hs'
  rw [heq]

/-! ## C5: rerank truncation bound -/

/-- C5: `rerank` returns exactly `min (len C) k` results, and on an empty
candidate list it returns the empty list for every scorer — i.e. without
the relevance scorer influencing anything. -/
theorem rerank_truncation_bound (scorer : String → String → ℚ) (query : String)
    (results : List Result) (top_k : Nat) :
    (rerank scorer query results top_k).length = min results.length top_k ∧
    (∀ scorer2 : String → String → ℚ, rerank scorer2 query [] top_k = []) := by
  constructor
  · cases results with
    | nil => simp [rerank]
    | cons r rest =>
      simp only [rerank, List.isEmpty_cons, Bool.false_eq_true, if_false,
        List.length_take, rerankAll_length, List.length_cons]
      omega
  · intro scorer2
    rfl

/-! ## C9: rerank writes every candidate, including truncated ones -/

/-- C9: for a non-empty candidate list the rerank stage computes the full
reranked list (`rerankAll`, the post-call state of the caller's candidate
dictionaries, which the Python code updates in place): every candidate —
also the ones beyond `top_k` that are absent from the returned value —
receives a `rerank_score` entry and an overwritten contiguous `rank`, and
the returned list is only the `top_k`-prefix of it. -/
theorem rerank_mutates_every_candidate (scorer : String → String → ℚ)
    (query : String) (results : List Result) (top_k : Nat) (h : results ≠ []) :
    (rerankAll scorer query results).length = results.length ∧
    (∀ r ∈ rerankAll scorer query results,
      r.rerank_score = some (scorer query r.content)) ∧
    (rerankAll scorer query results).map Result.rank =
      List.range' 1 results.length ∧
    ((rerankAll scorer query results).map (fun r => { r with rank := 0 })).Perm
      (results.map (fun r =>
        { r with rank := 0, rerank_score := some (scorer query r.content) })) ∧
    rerank scorer query results top_k = (rerankAll scorer query results).take top_k := by
  refine ⟨rerankAll_length scorer query results,
    rerankAll_rerank_score scorer query results, ?_, ?_, ?_⟩
  · rw [rerankAll, rerankAssign_ranks,
      (List.perm_insertionSort rerankScoreGe _).length_eq, List.length_map]
  · rw [rerankAll, rerankAssign_erase_rank]
    have hperm := (List.perm_insertionSort rerankScoreGe
      (results.map (fun r => { r with rerank_score := some (scorer query r.content) }))).map
      (fun r => { r with rank := 0 })
    refine hperm.trans ?_
    rw [List.map_map]
    rfl
  · cases results with
    | nil => exact absurd rfl h
    | cons r rest =>
      simp only [rerank, List.isEmpty_cons, Bool.false_eq_true, if_false]

/-- Concrete candidates and scorer for witnesses. -/
def wItemA : Item := ⟨"chunk_A", "제36조 기준", ⟨"건축법", 3⟩⟩

def wItemB : Item := ⟨"chunk_B", "비계 설치 기준", ⟨"건축법 시행령", 7⟩⟩

def wScorer : String → String → ℚ := fun _ c => (c.data.length : ℚ)

def wResultA : Result :=
  { rank := 1, chunk_id := "chunk_A", content := "가", metadata := ⟨"건축법", 1⟩,
    score := 1, search_type := "hybrid" }

def wResultB : Result :=
  { rank := 2, chunk_id := "chunk_B", content := "나다라", metadata := ⟨"건축법", 2⟩,
    score := 1/2, search_type := "hybrid" }

/-- Witness for C9 at a concrete two-candidate list with `top_k = 1`. -/
theorem rerank_mutates_every_candidate_witness :
    (rerankAll wScorer "질문" [wResultA, wResultB]).length = 2 ∧
    (∀ r ∈ rerankAll wScorer "질문" [wResultA, wResultB],
      r.rerank_score = some (wScorer "질문" r.content)) ∧
    (rerankAll wScorer "질문" [wResultA, wResultB]).map Result.rank =
      List.range' 1 2 ∧
    ((rerankAll wScorer "질문" [wResultA, wResultB]).map
        (fun r => { r with rank := 0 })).Perm
      ([wResultA, wResultB].map (fun r =>
        { r with rank := 0, rerank_score := some (wScorer "질문" r.content) })) ∧
    rerank wScorer "질문" [wResultA, wResultB] 1 =
      (rerankAll wScorer "질문" [wResultA, wResultB]).take 1 :=
  rerank_mutates_every_candidate wScorer "질문" [wResultA, wResultB] 1 (by decide)

/-! ## C10: negative dense-index neighbors are not skipped -/

/-- C10: the out-of-range guard of `vector_search` skips exactly the
neighbor indices `≥ len(metadata)`; a negative index (such as the FAISS
`-1` sentinel) passes the guard and is resolved Python-style from the end
of the metadata list, landing on position `len(metadata) + idx` — so a `-1`
neighbor yields the last corpus chunk as a result. -/
theorem vectorLoop_negative_index (md : List Item) (d : ℚ) (idx : ℤ) (top_k : Nat)
    (h1 : -(md.length : ℤ) ≤ idx) (h2 : idx < 0) :
    vectorLoop md top_k [(idx, d)] [] =
      some [mkVectorResult 1 (md.getD ((md.length : ℤ) + idx).toNat default) d] ∧
    ((md.length : ℤ) + idx).toNat < md.length ∧
    (∀ j : ℤ, (md.length : ℤ) ≤ j → vectorLoop md top_k [(j, d)] [] = some []) := by
  have hn : ¬ ((md.length : ℤ) ≤ idx) := by omega
  have hj : (0 : ℤ) ≤ (md.length : ℤ) + idx := by omega
  have hlt : ((md.length : ℤ) + idx).toNat < md.length := by omega
  have hg : md.get? ((md.length : ℤ) + idx).toNat =
      some (md.getD ((md.length : ℤ) + idx).toNat default) := by
    rw [List.get?_eq_getElem?, List.getD_eq_getElem?_getD]
    cases hq : md[((md.length : ℤ) + idx).toNat]? with
    | none => rw [List.getElem?_eq_none_iff] at hq; omega
    | some v => rfl
  refine ⟨?_, hlt, fun j hjle => ?_⟩
  · simp only [vectorLoop, if_neg hn, pyGet, if_pos h2, if_pos hj, hg]
    simp only [List.nil_append, List.length_cons, List.length_nil]
    split <;> simp [vectorLoop]
  · simp only [vectorLoop, if_pos hjle]

/-- Witness for C10: over a two-chunk corpus, the `-1` neighbor returns the
last chunk and an index `2` (equal to the corpus length) is skipped. -/
theorem vectorLoop_negative_index_witness :
    vectorLoop [wItemA, wItemB] 5 [(-1, 1)] [] = some [mkVectorResult 1 wItemB 1] ∧
    vectorLoop [wItemA, wItemB] 5 [(2, 1)] [] = some [] := by
  have h := vectorLoop_negative_index [wItemA, wItemB] 1 (-1) 5 (by decide) (by decide)
  exact ⟨h.1, h.2.2 2 (by decide)⟩

/-! ## C2: cross-method agreement in RRF (spec scenario) -/

/-- The spec scenario's dense list entry `X` at rank 1. -/
def wVecX : Result :=
  { rank := 1, chunk_id := "X", content := "건폐율 기준", metadata := ⟨"건축법", 1⟩,
    score := 9/10, search_type := "vector" }

/-- Entry `Y` of the dense list, at rank 2. -/
def wVecY : Result :=
  { rank := 2, chunk_id := "Y", content := "비계 기준", metadata := ⟨"건축법", 2⟩,
    score := 8/10, search_type := "vector" }

/-- Entry `Y` of the keyword list, at rank 1. -/
def wKeyY : Result :=
  { rank := 1, chunk_id := "Y", content := "비계 기준", metadata := ⟨"건축법", 2⟩,
    score := 5, search_type := "keyword" }

/-- Entry `Z` of the keyword list, at rank 2. -/
def wKeyZ : Result :=
  { rank := 2, chunk_id := "Z", content := "용도변경 절차", metadata := ⟨"건축법", 3⟩,
    score := 3, search_type := "keyword" }

/-- The fused chunk/score pairs of the spec scenario, computed from the
embedded `reciprocal_rank_fusion`. -/
theorem rrf_scenario_pairs :
    (reciprocal_rank_fusion [wVecX, wVecY] [wKeyY, wKeyZ] 60).map
      (fun r => (r.chunk_id, r.rrf_score)) =
      [("Y", some (1/62 + 1/61)), ("X", some (1/61)), ("Z", some (1/62))] := by
  have hscores : rrfAccumScores 60 [wKeyY, wKeyZ] (rrfAccumScores 60 [wVecX, wVecY] []) =
      [("X", 0 + rrfContribution 60 1),
       ("Y", 0 + rrfContribution 60 2 + rrfContribution 60 1),
       ("Z", 0 + rrfContribution 60 2)] := rfl
  have hYZ : scoreGe ("Y", (0 : ℚ) + rrfContribution 60 2 + rrfContribution 60 1)
      ("Z", (0 : ℚ) + rrfContribution 60 2) := by
    show (0 : ℚ) + rrfContribution 60 2 ≤ 0 + rrfContribution 60 2 + rrfContribution 60 1
    norm_num [rrfContribution]
  have hXY : ¬ scoreGe ("X", (0 : ℚ) + rrfContribution 60 1)
      ("Y", (0 : ℚ) + rrfContribution 60 2 + rrfContribution 60 1) := by
    show ¬ ((0 : ℚ) + rrfContribution 60 2 + rrfContribution 60 1 ≤ 0 + rrfContribution 60 1)
    norm_num [rrfContribution]
  have hXZ : scoreGe ("X", (0 : ℚ) + rrfContribution 60 1)
      ("Z", (0 : ℚ) + rrfContribution 60 2) := by
    show (0 : ℚ) + rrfContribution 60 2 ≤ 0 + rrfContribution 60 1
    norm_num [rrfContribution]
  have hsort : List.insertionSort scoreGe
      [("X", (0 : ℚ) + rrfContribution 60 1),
       ("Y", 0 + rrfContribution 60 2 + rrfContribution 60 1),
       ("Z", 0 + rrfContribution 60 2)] =
      [("Y", 0 + rrfContribution 60 2 + rrfContribution 60 1),
       ("X", 0 + rrfContribution 60 1),
       ("Z", 0 + rrfContribution 60 2)] := by
    simp only [List.insertionSort, List.orderedInsert]
    rw [if_pos hYZ]
    simp only [List.orderedInsert]
    rw [if_neg hXY, if_pos hXZ]
  have hdata : rrfKeywordData [wKeyY, wKeyZ] (rrfVectorData [wVecX, wVecY] []) =
      [("X", wVecX), ("Y", wVecY), ("Z", wKeyZ)] := rfl
  have hfX : dictFind [("X", wVecX), ("Y", wVecY), ("Z", wKeyZ)] "X" = wVecX := rfl
  have hfY : dictFind [("X", wVecX), ("Y", wVecY), ("Z", wKeyZ)] "Y" = wVecY := rfl
  have hfZ : dictFind [("X", wVecX), ("Y", wVecY), ("Z", wKeyZ)] "Z" = wKeyZ := rfl
  simp only [reciprocal_rank_fusion]
  rw [hscores, hsort, hdata]
  simp only [rrfEmit, List.map]
  rw [hfX, hfY, hfZ]
  norm_num [rrfContribution, wVecX, wVecY, wKeyZ]

/-- C2 counterexample: in the spec scenario the code gives `Y` (dense rank 2,
keyword rank 1) the fused score `1/62 + 1/61`, not the claimed
`1/61 + 1/61 = 2/61`; the fused order `Y, X, Z` itself is as claimed. -/
theorem rrf_scenario_y_score_counterexample :
    (reciprocal_rank_fusion [wVecX, wVecY] [wKeyY, wKeyZ] 60).map
        (fun r => (r.chunk_id, r.rrf_score)) =
      [("Y", some (1/62 + 1/61)), ("X", some (1/61)), ("Z", some (1/62))] ∧
    ((1/62 : ℚ) + 1/61) ≠ 1/61 + 1/61 := by
  refine ⟨rrf_scenario_pairs, ?_⟩
  norm_num

/-- C2 amended: a chunk in both lists at ranks `≤ r` accumulates at least
the contribution of a chunk in only one list at rank `r` (`k_rrf = 60`),
and in the spec scenario the fused order is `Y` (score `1/62 + 1/61`, from
dense rank 2 and keyword rank 1) ahead of `X` (`1/61`) ahead of `Z`
(`1/62`). -/
theorem rrf_cross_method_monotonicity (ra rb r : Nat) (hra : ra ≤ r) (hrb : rb ≤ r) :
    rrfContribution 60 r ≤ rrfContribution 60 ra + rrfContribution 60 rb ∧
    (reciprocal_rank_fusion [wVecX, wVecY] [wKeyY, wKeyZ] 60).map
        (fun x => (x.chunk_id, x.rrf_score)) =
      [("Y", some (1/62 + 1/61)), ("X", some (1/61)), ("Z", some (1/62))] := by
  refine ⟨?_, rrf_scenario_pairs⟩
  have hra' : ((ra : ℚ)) ≤ (r : ℚ) := Nat.cast_le.mpr hra
  have hrb' : ((rb : ℚ)) ≤ (r : ℚ) := Nat.cast_le.mpr hrb
  have h1 : (0 : ℚ) < ((60 : ℕ) : ℚ) + (ra : ℚ) := by positivity
  have h4 : (1 : ℚ) / (((60 : ℕ) : ℚ) + (r : ℚ)) ≤ 1 / (((60 : ℕ) : ℚ) + (ra : ℚ)) :=
    one_div_le_one_div_of_le h1 (by linarith)
  have h5 : (0 : ℚ) < 1 / (((60 : ℕ) : ℚ) + (rb : ℚ)) := by positivity
  simp only [rrfContribution]
  linarith

/-- Witness for C2 (amended) at ranks `ra = 1`, `rb = 1`, `r = 2`. -/
theorem rrf_cross_method_monotonicity_witness :
    rrfContribution 60 2 ≤ rrfContribution 60 1 + rrfContribution 60 1 ∧
    (reciprocal_rank_fusion [wVecX, wVecY] [wKeyY, wKeyZ] 60).map
        (fun x => (x.chunk_id, x.rrf_score)) =
      [("Y", some (1/62 + 1/61)), ("X", some (1/61)), ("Z", some (1/62))] :=
  rrf_cross_method_monotonicity 1 1 2 (by decide) (by decide)

/-! ## Dictionary lemmas for RRF -/

/-- The keys of an association list, in insertion order. -/
def dKeys (d : List (String × α)) : List String := d.map Prod.fst

theorem dictMem_iff_mem_dKeys (d : List (String × α)) (k : String) :
    dictMem d k = true ↔ k ∈ dKeys d := by
  rw [dictMem, List.any_eq_true, dKeys]
  constructor
  · rintro ⟨p, hp, hb⟩
    exact List.mem_map.mpr ⟨p, hp, eq_of_beq hb⟩
  · intro hk
    obtain ⟨p, hp, hpk⟩ := List.mem_map.mp hk
    refine ⟨p, hp, ?_⟩
    rw [hpk]
    exact beq_self_eq_true k

theorem dKeys_dictInsert (d : List (String × α)) (k : String) (v : α) :
    dKeys (dictInsert d k v) =
      if dictMem d k then dKeys d else dKeys d ++ [k] := by
  rw [dictInsert]
  split
  · rw [dKeys, dKeys, List.map_map]
    refine List.map_congr_left ?_
    intro p _
    show Prod.fst (if p.1 == k then (k, v) else p) = p.1
    by_cases hb : (p.1 == k) = true
    · rw [if_pos hb]
      exact (eq_of_beq hb).symm
    · rw [if_neg hb]
  · rw [dKeys, dKeys, List.map_append]
    rfl

theorem mem_dKeys_dictInsert (d : List (String × α)) (k k' : String) (v : α) :
    k' ∈ dKeys (dictInsert d k v) ↔ k' ∈ dKeys d ∨ k' = k := by
  rw [dKeys_dictInsert]
  split
  case isTrue hmem =>
    constructor
    · exact Or.inl
    · rintro (h | rfl)
      · exact h
      · exact (dictMem_iff_mem_dKeys d k').mp hmem
  case isFalse hmem =>
    rw [List.mem_append, List.mem_singleton]

theorem dKeys_nodup_dictInsert (d : List (String × α)) (k : String) (v : α)
    (h : (dKeys d).Nodup) : (dKeys (dictInsert d k v)).Nodup := by
  rw [dKeys_dictInsert]
  split
  · exact h
  case isFalse hmem =>
    rw [List.nodup_append]
    refine ⟨h, List.nodup_singleton k, ?_⟩
    intro a ha hb
    rw [List.mem_singleton] at hb
    subst hb
    exact hmem ((dictMem_iff_mem_dKeys d a).mpr ha)

theorem dictGet_cons (p : String × ℚ) (d : List (String × ℚ)) (k : String) :
    dictGet (p :: d) k = if p.1 == k then p.2 else dictGet d k := by
  by_cases hb : (p.1 == k) = true
  · rw [if_pos hb]
    show (match List.find? (fun q => q.1 == k) (p :: d) with
      | some q => q.2 | none => 0) = p.2
    rw [List.find?, hb]
  · have hb' : (p.1 == k) = false := by simpa using hb
    rw [if_neg hb]
    show (match List.find? (fun q => q.1 == k) (p :: d) with
      | some q => q.2 | none => 0) = dictGet d k
    rw [List.find?, hb']
    rfl

theorem dictMem_cons (p : String × α) (d : List (String × α)) (k : String) :
    dictMem (p :: d) k = ((p.1 == k) || dictMem d k) := by
  rw [dictMem, List.any_cons, dictMem]

theorem dictGet_map_ne (d : List (String × ℚ)) (k k' : String) (v : ℚ) (hne : k' ≠ k) :
    dictGet (d.map (fun p => if p.1 == k then (k, v) else p)) k' = dictGet d k' := by
  induction d with
  | nil => rfl
  | cons p rest ih =>
    rw [List.map_cons, dictGet_cons, dictGet_cons]
    by_cases hb : (p.1 == k) = true
    · have hpk := eq_of_beq hb
      rw [if_pos hb]
      have hk' : (k == k') = false := beq_eq_false_iff_ne.mpr (fun he => hne he.symm)
      have hp' : (p.1 == k') = false := by
        rw [hpk]
        exact hk'
      rw [if_neg (by simp [hk']), if_neg (by simp [hp']), ih]
    · rw [if_neg hb]
      by_cases hb' : (p.1 == k') = true
      · rw [if_pos hb', if_pos hb']
      · rw [if_neg hb', if_neg hb', ih]

theorem dictGet_map_set (d : List (String × ℚ)) (k : String) (v : ℚ)
    (hmem : dictMem d k = true) :
    dictGet (d.map (fun p => if p.1 == k then (k, v) else p)) k = v := by
  induction d with
  | nil => simp [dictMem] at hmem
  | cons p rest ih =>
    rw [List.map_cons, dictGet_cons]
    by_cases hb : (p.1 == k) = true
    · rw [if_pos hb]
      simp only [if_pos (beq_self_eq_true k)]
    · have hb' : (p.1 == k) = false := by simpa using hb
      rw [if_neg hb, if_neg hb]
      rw [dictMem_cons, hb', Bool.false_or] at hmem
      exact ih hmem

theorem dictGet_append_single (d : List (String × ℚ)) (k k' : String) (v : ℚ)
    (hmem : dictMem d k = false) :
    dictGet (d ++ [(k, v)]) k' = if k' = k then v else dictGet d k' := by
  induction d with
  | nil =>
    rw [List.nil_append, dictGet_cons]
    by_cases hk : k' = k
    · rw [if_pos (by rw [hk]; exact beq_self_eq_true k), if_pos hk]
    · rw [if_neg (by simp [beq_eq_false_iff_ne.mpr (fun he => hk he.symm)]), if_neg hk]
  | cons p rest ih =>
    rw [dictMem_cons, Bool.or_eq_false_iff] at hmem
    rw [List.cons_append, dictGet_cons, dictGet_cons]
    by_cases hb : (p.1 == k') = true
    · rw [if_pos hb, if_pos hb]
      by_cases hk : k' = k
      · subst hk
        rw [hmem.1] at hb
        exact absurd hb (by simp)
      · rw [if_neg hk]
    · rw [if_neg hb, if_neg hb, ih hmem.2]

theorem dictGet_dictInsert (d : List (String × ℚ)) (k k' : String) (v : ℚ) :
    dictGet (dictInsert d k v) k' = if k' = k then v else dictGet d k' := by
  rw [dictInsert]
  by_cases hmem : dictMem d k = true
  · rw [if_pos hmem]
    by_cases hk : k' = k
    · subst hk
      rw [if_pos rfl]
      exact dictGet_map_set d k' v hmem
    · rw [if_neg hk]
      exact dictGet_map_ne d k k' v hk
  · rw [if_neg hmem]
    exact dictGet_append_single d k k' v (by simpa using hmem)

theorem dictGet_of_mem (d : List (String × ℚ)) (p : String × ℚ)
    (hnd : (dKeys d).Nodup) (hp : p ∈ d) : dictGet d p.1 = p.2 := by
  induction d with
  | nil => cases hp
  | cons q rest ih =>
    rw [dKeys, List.map_cons, List.nodup_cons] at hnd
    rcases List.mem_cons.mp hp with rfl | hmem
    · rw [dictGet_cons, if_pos (beq_self_eq_true p.1)]
    · have hne : (q.1 == p.1) = false := by
        rw [beq_eq_false_iff_ne]
        intro he
        apply hnd.1
        rw [he]
        exact List.mem_map.mpr ⟨p, hmem, rfl⟩
      rw [dictGet_cons, if_neg (by simp [hne])]
      exact ih hnd.2 hmem

/-! ## Fold lemmas for the RRF accumulators -/

/-- The summed RRF contributions of one input list for a given chunk id. -/
def sumContrib (k : Nat) (rs : List Result) (c : String) : ℚ :=
  ((rs.filter (fun r => r.chunk_id == c)).map (fun r => rrfContribution k r.rank)).sum

theorem sumContrib_cons (k : Nat) (r : Result) (rest : List Result) (c : String) :
    sumContrib k (r :: rest) c =
      if r.chunk_id = c then rrfContribution k r.rank + sumContrib k rest c
      else sumContrib k rest c := by
  rw [sumContrib, List.filter_cons]
  by_cases hb : r.chunk_id = c
  · rw [if_pos (by rw [hb]; exact beq_self_eq_true c), if_pos hb, List.map_cons,
      List.sum_cons, sumContrib]
  · rw [if_neg (by simpa using hb), if_neg hb, sumContrib]

theorem mem_dKeys_rrfAccumScores (k : Nat) (rs : List Result)
    (d : List (String × ℚ)) (c : String) :
    c ∈ dKeys (rrfAccumScores k rs d) ↔
      c ∈ dKeys d ∨ c ∈ rs.map Result.chunk_id := by
  induction rs generalizing d with
  | nil => simp [rrfAccumScores]
  | cons r rest ih =>
    have hstep : rrfAccumScores k (r :: rest) d = rrfAccumScores k rest
        (dictInsert d r.chunk_id (dictGet d r.chunk_id + rrfContribution k r.rank)) := rfl
    rw [hstep, ih, mem_dKeys_dictInsert, List.map_cons, List.mem_cons]
    tauto

theorem dKeys_nodup_rrfAccumScores (k : Nat) (rs : List Result)
    (d : List (String × ℚ)) (h : (dKeys d).Nodup) :
    (dKeys (rrfAccumScores k rs d)).Nodup := by
  induction rs generalizing d with
  | nil => exact h
  | cons r rest ih => exact ih _ (dKeys_nodup_dictInsert _ _ _ h)

theorem dictGet_rrfAccumScores (k : Nat) (rs : List Result)
    (d : List (String × ℚ)) (c : String) :
    dictGet (rrfAccumScores k rs d) c = dictGet d c + sumContrib k rs c := by
  induction rs generalizing d with
  | nil =>
    show dictGet d c = dictGet d c + sumContrib k [] c
    rw [sumContrib]
    simp
  | cons r rest ih =>
    have hstep : rrfAccumScores k (r :: rest) d = rrfAccumScores k rest
        (dictInsert d r.chunk_id (dictGet d r.chunk_id + rrfContribution k r.rank)) := rfl
    rw [hstep, ih, dictGet_dictInsert, sumContrib_cons]
    by_cases hc : c = r.chunk_id
    · subst hc
      rw [if_pos rfl, if_pos rfl]
      ring
    · rw [if_neg hc, if_neg (fun h => hc h.symm)]

/-- Invariant of the payload dictionary: every stored result's chunk id is
its key. -/
def dataInv (d : List (String × Result)) : Prop := ∀ p ∈ d, p.2.chunk_id = p.1

theorem dataInv_dictInsert (d : List (String × Result)) (k : String) (r : Result)
    (hd : dataInv d) (hr : r.chunk_id = k) : dataInv (dictInsert d k r) := by
  rw [dictInsert]
  split
  · intro p hp
    obtain ⟨q, hq, hqe⟩ := List.mem_map.mp hp
    by_cases hb : (q.1 == k) = true
    · rw [if_pos hb] at hqe
      rw [← hqe]
      exact hr
    · rw [if_neg hb] at hqe
      rw [← hqe]
      exact hd q hq
  · intro p hp
    rcases List.mem_append.mp hp with h | h
    · exact hd p h
    · rw [List.mem_singleton] at h
      rw [h]
      exact hr

theorem mem_dKeys_rrfVectorData (rs : List Result) (d : List (String × Result))
    (c : String) :
    c ∈ dKeys (rrfVectorData rs d) ↔ c ∈ dKeys d ∨ c ∈ rs.map Result.chunk_id := by
  induction rs generalizing d with
  | nil => simp [rrfVectorData]
  | cons r rest ih =>
    have hstep : rrfVectorData (r :: rest) d =
        rrfVectorData rest (dictInsert d r.chunk_id r) := rfl
    rw [hstep, ih, mem_dKeys_dictInsert, List.map_cons, List.mem_cons]
    tauto

theorem dataInv_rrfVectorData (rs : List Result) (d : List (String × Result))
    (hd : dataInv d) : dataInv (rrfVectorData rs d) := by
  induction rs generalizing d with
  | nil => exact hd
  | cons r rest ih => exact ih _ (dataInv_dictInsert d r.chunk_id r hd rfl)

theorem mem_dKeys_rrfKeywordData (rs : List Result) (d : List (String × Result))
    (c : String) :
    c ∈ dKeys (rrfKeywordData rs d) ↔ c ∈ dKeys d ∨ c ∈ rs.map Result.chunk_id := by
  induction rs generalizing d with
  | nil => simp [rrfKeywordData]
  | cons r rest ih =>
    have hstep : rrfKeywordData (r :: rest) d = rrfKeywordData rest
        (if dictMem d r.chunk_id then d else dictInsert d r.chunk_id r) := rfl
    rw [hstep, ih, List.map_cons, List.mem_cons]
    by_cases hmem : dictMem d r.chunk_id = true
    · rw [if_pos hmem]
      constructor
      · rintro (h | h)
        · exact Or.inl h
        · exact Or.inr (Or.inr h)
      · rintro (h | rfl | h)
        · exact Or.inl h
        · exact Or.inl ((dictMem_iff_mem_dKeys d _).mp hmem)
        · exact Or.inr h
    · rw [if_neg hmem, mem_dKeys_dictInsert]
      tauto

theorem dataInv_rrfKeywordData (rs : List Result) (d : List (String × Result))
    (hd : dataInv d) : dataInv (rrfKeywordData rs d) := by
  induction rs generalizing d with
  | nil => exact hd
  | cons r rest ih =>
    have hstep : rrfKeywordData (r :: rest) d = rrfKeywordData rest
        (if dictMem d r.chunk_id then d else dictInsert d r.chunk_id r) := rfl
    rw [hstep]
    by_cases hmem : dictMem d r.chunk_id = true
    · rw [if_pos hmem]
      exact ih _ hd
    · rw [if_neg hmem]
      exact ih _ (dataInv_dictInsert d r.chunk_id r hd rfl)

theorem dictFind_chunk_id (d : List (String × Result)) (c : String)
    (hinv : dataInv d) (hc : c ∈ dKeys d) : (dictFind d c).chunk_id = c := by
  induction d with
  | nil => cases hc
  | cons p rest ih =>
    rw [dKeys, List.map_cons, List.mem_cons] at hc
    by_cases hb : (p.1 == c) = true
    · have : dictFind (p :: rest) c = p.2 := by
        show (match List.find? (fun q => q.1 == c) (p :: rest) with
          | some q => q.2 | none => default) = p.2
        rw [List.find?, hb]
      rw [this]
      exact (hinv p (List.mem_cons_self p rest)).trans (eq_of_beq hb)
    · have hb' : (p.1 == c) = false := by simpa using hb
      have : dictFind (p :: rest) c = dictFind rest c := by
        show (match List.find? (fun q => q.1 == c) (p :: rest) with
          | some q => q.2 | none => default) = dictFind rest c
        rw [List.find?, hb']
        rfl
      rw [this]
      refine ih (fun q hq => hinv q (List.mem_cons_of_mem p hq)) ?_
      rcases hc with h | h
      · exact absurd (by rw [h]; exact beq_self_eq_true p.1) hb
      · exact h

/-! ## Emission lemmas for RRF -/

theorem rrfEmit_length (data : List (String × Result)) (i : Nat)
    (l : List (String × ℚ)) : (rrfEmit data i l).length = l.length := by
  induction l generalizing i with
  | nil => rfl
  | cons p rest ih =>
    cases p with
    | mk cid s => simp [rrfEmit, ih]

theorem rrfEmit_ranks (data : List (String × Result)) (i : Nat)
    (l : List (String × ℚ)) :
    (rrfEmit data i l).map Result.rank = List.range' (i + 1) l.length := by
  induction l generalizing i with
  | nil => rfl
  | cons p rest ih =>
    cases p with
    | mk cid s => simp [rrfEmit, ih, List.range'_succ]

theorem rrfEmit_mem (data : List (String × Result)) (i : Nat)
    (l : List (String × ℚ)) (r : Result) (h : r ∈ rrfEmit data i l) :
    ∃ p ∈ l, r = { dictFind data p.1 with
      rank := r.rank, rrf_score := some p.2, search_type := "hybrid" } := by
  induction l generalizing i with
  | nil => cases h
  | cons p rest ih =>
    cases p with
    | mk cid s =>
      rcases List.mem_cons.mp h with heq | hmem
      · refine ⟨(cid, s), List.mem_cons_self _ _, ?_⟩
        rw [heq]
      · obtain ⟨q, hq, he⟩ := ih (i + 1) hmem
        exact ⟨q, List.mem_cons_of_mem _ hq, he⟩

theorem rrfEmit_search_type (data : List (String × Result)) (i : Nat)
    (l : List (String × ℚ)) :
    ∀ r ∈ rrfEmit data i l, r.search_type = "hybrid" := by
  intro r h
  obtain ⟨p, _, he⟩ := rrfEmit_mem data i l r h
  rw [he]

theorem rrfEmit_chunk_ids (data : List (String × Result)) (i : Nat)
    (l : List (String × ℚ))
    (h : ∀ c ∈ l.map Prod.fst, (dictFind data c).chunk_id = c) :
    (rrfEmit data i l).map Result.chunk_id = l.map Prod.fst := by
  induction l generalizing i with
  | nil => rfl
  | cons p rest ih =>
    cases p with
    | mk cid s =>
      have hh : (dictFind data cid).chunk_id = cid := h cid (by simp)
      have ht : ∀ c ∈ rest.map Prod.fst, (dictFind data c).chunk_id = c :=
        fun c hc => h c (by simp [hc])
      simp [rrfEmit, ih _ ht, hh]

theorem rrfEmit_pairwise (data : List (String × Result)) (i : Nat)
    (l : List (String × ℚ)) (h : l.Pairwise scoreGe) :
    (rrfEmit data i l).Pairwise
      (fun x y => y.rrf_score.getD 0 ≤ x.rrf_score.getD 0) := by
  induction l generalizing i with
  | nil => exact List.Pairwise.nil
  | cons p rest ih =>
    cases p with
    | mk cid s =>
      rw [List.pairwise_cons] at h
      have hstep : rrfEmit data i ((cid, s) :: rest) =
          { dictFind data cid with
            rank := i + 1, rrf_score := some s, search_type := "hybrid" }
            :: rrfEmit data (i + 1) rest := rfl
      rw [hstep, List.pairwise_cons]
      refine ⟨?_, ih (i + 1) h.2⟩
      intro y hy
      obtain ⟨q, hq, he⟩ := rrfEmit_mem data (i + 1) rest y hy
      have hgs : scoreGe (cid, s) q := h.1 q hq
      rw [he]
      exact hgs

/-! ## C1: fusion completeness, ordering, ranks and tagging -/

/-- C1: for every pair of input lists, `reciprocal_rank_fusion` returns a
list whose chunk ids are exactly the distinct ids of either input, each
exactly once (no chunk in only one list is dropped), sorted descending by
the summed RRF score (stored in `rrf_score`), with ranks reassigned to
exactly `1..N` and `search_type = "hybrid"` on every entry. -/
theorem rrf_fusion_completeness (A B : List Result) (k : Nat) :
    ((reciprocal_rank_fusion A B k).map Result.chunk_id).Nodup ∧
    (∀ c, c ∈ (reciprocal_rank_fusion A B k).map Result.chunk_id ↔
      c ∈ A.map Result.chunk_id ∨ c ∈ B.map Result.chunk_id) ∧
    ((reciprocal_rank_fusion A B k).Pairwise
      (fun x y => y.rrf_score.getD 0 ≤ x.rrf_score.getD 0)) ∧
    (∀ r ∈ reciprocal_rank_fusion A B k,
      r.rrf_score = some (sumContrib k A r.chunk_id + sumContrib k B r.chunk_id)) ∧
    (reciprocal_rank_fusion A B k).map Result.rank =
      List.range' 1 (reciprocal_rank_fusion A B k).length ∧
    (∀ r ∈ reciprocal_rank_fusion A B k, r.search_type = "hybrid") := by
  set cs := rrfAccumScores k B (rrfAccumScores k A []) with hcs
  set cd := rrfKeywordData B (rrfVectorData A []) with hcd
  set sc := List.insertionSort scoreGe cs with hsc
  have hfuse : reciprocal_rank_fusion A B k = rrfEmit cd 0 sc := rfl
  have hperm : sc.Perm cs := List.perm_insertionSort scoreGe cs
  have hnd : (dKeys cs).Nodup := by
    rw [hcs]
    exact dKeys_nodup_rrfAccumScores k B _
      (dKeys_nodup_rrfAccumScores k A [] List.nodup_nil)
  have hmemcs : ∀ c, c ∈ dKeys cs ↔
      c ∈ A.map Result.chunk_id ∨ c ∈ B.map Result.chunk_id := by
    intro c
    rw [hcs, mem_dKeys_rrfAccumScores, mem_dKeys_rrfAccumScores]
    simp [dKeys]
  have hinv : dataInv cd := by
    rw [hcd]
    exact dataInv_rrfKeywordData B _ (dataInv_rrfVectorData A []
      (fun p hp => absurd hp (List.not_mem_nil p)))
  have hmemcd : ∀ c, (c ∈ A.map Result.chunk_id ∨ c ∈ B.map Result.chunk_id) →
      c ∈ dKeys cd := by
    intro c hc
    rw [hcd, mem_dKeys_rrfKeywordData, mem_dKeys_rrfVectorData]
    tauto
  have hkeys_sc : ∀ c, c ∈ sc.map Prod.fst ↔ c ∈ dKeys cs := by
    intro c
    exact (hperm.map Prod.fst).mem_iff
  have hfind : ∀ c ∈ sc.map Prod.fst, (dictFind cd c).chunk_id = c := by
    intro c hc
    exact dictFind_chunk_id cd c hinv (hmemcd c ((hmemcs c).mp ((hkeys_sc c).mp hc)))
  have hids : (rrfEmit cd 0 sc).map Result.chunk_id = sc.map Prod.fst :=
    rrfEmit_chunk_ids cd 0 sc hfind
  refine ⟨?_, ?_, ?_, ?_, ?_, ?_⟩
  · rw [hfuse, hids]
    exact ((hperm.map Prod.fst).nodup_iff).mpr hnd
  · intro c
    rw [hfuse, hids, hkeys_sc c]
    exact hmemcs c
  · rw [hfuse]
    exact rrfEmit_pairwise cd 0 sc (List.sorted_insertionSort scoreGe cs)
  · intro r hr
    rw [hfuse] at hr
    obtain ⟨p, hp, he⟩ := rrfEmit_mem cd 0 sc r hr
    have hpcs : p ∈ cs := hperm.mem_iff.mp hp
    have hval : dictGet cs p.1 = p.2 := dictGet_of_mem cs p hnd hpcs
    have hsum : dictGet cs p.1 = sumContrib k A p.1 + sumContrib k B p.1 := by
      rw [hcs, dictGet_rrfAccumScores, dictGet_rrfAccumScores]
      show dictGet [] p.1 + sumContrib k A p.1 + sumContrib k B p.1 = _
      rw [show dictGet [] p.1 = 0 from rfl]
      ring
    have hfid : (dictFind cd p.1).chunk_id = p.1 :=
      hfind p.1 (List.mem_map.mpr ⟨p, hp, rfl⟩)
    rw [he]
    show some p.2 = some (sumContrib k A (dictFind cd p.1).chunk_id +
      sumContrib k B (dictFind cd p.1).chunk_id)
    rw [hfid, ← hval, hsum]
  · rw [hfuse, rrfEmit_ranks, rrfEmit_length]
  · rw [hfuse]
    exact rrfEmit_search_type cd 0 sc

/-! ## C3: keyword search output discipline -/

theorem argsortDesc_pairwise (scores : List ℚ) :
    (argsortDesc scores).Pairwise (fun i j => scores.getD j 0 ≤ scores.getD i 0) := by
  rw [argsortDesc, List.pairwise_reverse]
  exact List.sorted_insertionSort (scoreLeAt scores) (List.range scores.length)

theorem keywordLoop_invariant (scores : List ℚ) (md : List Item) (top_k : Nat) :
    ∀ (idxs : List Nat) (acc : List Result),
    acc.length < top_k →
    idxs.Pairwise (fun i j => scores.getD j 0 ≤ scores.getD i 0) →
    (∀ r ∈ acc, 0 < r.score) →
    acc.Pairwise (fun x y => y.score ≤ x.score) →
    (∀ r ∈ acc, ∀ i ∈ idxs, scores.getD i 0 ≤ r.score) →
    acc.map Result.rank = List.range' 1 acc.length →
    (∀ r ∈ acc, r.search_type = "keyword") →
    (∀ r ∈ keywordLoop scores md top_k idxs acc, 0 < r.score) ∧
    (keywordLoop scores md top_k idxs acc).Pairwise (fun x y => y.score ≤ x.score) ∧
    (keywordLoop scores md top_k idxs acc).length ≤ top_k ∧
    (keywordLoop scores md top_k idxs acc).map Result.rank =
      List.range' 1 (keywordLoop scores md top_k idxs acc).length ∧
    (∀ r ∈ keywordLoop scores md top_k idxs acc, r.search_type = "keyword") := by
  intro idxs
  induction idxs with
  | nil =>
    intro acc hlen _ hpos hsorted _ hranks htype
    exact ⟨hpos, hsorted, le_of_lt hlen, hranks, htype⟩
  | cons i rest ih =>
    intro acc hlen hpw hpos hsorted hbound hranks htype
    rw [List.pairwise_cons] at hpw
    by_cases hsc : scores.getD i 0 ≤ 0
    · have hstep : keywordLoop scores md top_k (i :: rest) acc =
          keywordLoop scores md top_k rest acc := by
        rw [keywordLoop, if_pos hsc]
      rw [hstep]
      exact ih acc hlen hpw.2 hpos hsorted
        (fun r hr j hj => hbound r hr j (List.mem_cons_of_mem i hj)) hranks htype
    · have hpossc : 0 < scores.getD i 0 := lt_of_not_le hsc
      have hstep : keywordLoop scores md top_k (i :: rest) acc =
          (if top_k ≤ (acc ++ [mkKeywordResult (acc.length + 1) (md.getD i default)
              (scores.getD i 0)]).length
           then acc ++ [mkKeywordResult (acc.length + 1) (md.getD i default)
              (scores.getD i 0)]
           else keywordLoop scores md top_k rest
             (acc ++ [mkKeywordResult (acc.length + 1) (md.getD i default)
              (scores.getD i 0)])) := by
        rw [keywordLoop, if_neg hsc]
      have hpos' : ∀ r ∈ acc ++ [mkKeywordResult (acc.length + 1) (md.getD i default)
          (scores.getD i 0)], 0 < r.score := by
        intro r hr
        rcases List.mem_append.mp hr with h | h
        · exact hpos r h
        · rw [List.mem_singleton] at h
          rw [h]
          exact hpossc
      have hsorted' : (acc ++ [mkKeywordResult (acc.length + 1) (md.getD i default)
          (scores.getD i 0)]).Pairwise (fun x y => y.score ≤ x.score) := by
        rw [List.pairwise_append]
        refine ⟨hsorted, List.pairwise_singleton _ _, ?_⟩
        intro a ha b hb
        rw [List.mem_singleton] at hb
        rw [hb]
        exact hbound a ha i (List.mem_cons_self i rest)
      have hranks' : (acc ++ [mkKeywordResult (acc.length + 1) (md.getD i default)
          (scores.getD i 0)]).map Result.rank =
          List.range' 1 (acc.length + 1) := by
        rw [List.map_append, hranks]
        have := @List.range'_concat 1 1 acc.length
        simp only [one_mul] at this
        rw [this]
        simp [mkKeywordResult, Nat.add_comm]
      have htype' : ∀ r ∈ acc ++ [mkKeywordResult (acc.length + 1) (md.getD i default)
          (scores.getD i 0)], r.search_type = "keyword" := by
        intro r hr
        rcases List.mem_append.mp hr with h | h
        · exact htype r h
        · rw [List.mem_singleton] at h
          rw [h]
          rfl
      rw [hstep]
      by_cases hbreak : top_k ≤ (acc ++ [mkKeywordResult (acc.length + 1)
          (md.getD i default) (scores.getD i 0)]).length
      · rw [if_pos hbreak]
        have hle : (acc ++ [mkKeywordResult (acc.length + 1) (md.getD i default)
            (scores.getD i 0)]).length ≤ top_k := by
          rw [List.length_append, List.length_singleton]
          omega
        refine ⟨hpos', hsorted', hle, ?_, htype'⟩
        rw [hranks']
        rw [List.length_append, List.length_singleton]
      · rw [if_neg hbreak]
        refine ih _ (lt_of_not_le hbreak) hpw.2 hpos' hsorted' ?_ ?_ htype'
        · intro r hr j hj
          rcases List.mem_append.mp hr with h | h
          · exact hbound r h j (List.mem_cons_of_mem i hj)
          · rw [List.mem_singleton] at h
            rw [h]
            exact hpw.1 j hj
        · rw [hranks', List.length_append, List.length_singleton]

/-- C3 counterexample: at `top_k = 0` over a corpus with one
positive-scoring chunk, `keyword_search` returns one result, not at most
zero — the `len(results) >= top_k` break only fires after the first
append. -/
theorem keyword_search_topk_zero_counterexample :
    (keyword_search [(1 : ℚ)] [wItemA] 0).length = 1 ∧
    ¬ ((keyword_search [(1 : ℚ)] [wItemA] 0).length ≤ 0) := by
  constructor
  · rfl
  · decide

/-- C3 amended: for every score vector (covering every query), corpus and
`top_k ≥ 1`, `keyword_search` returns only results with strictly positive
BM25 score, sorted descending by score, at most `top_k` of them, with
1-based contiguous ranks and `search_type = "keyword"`. -/
theorem keyword_search_spec (scores : List ℚ) (metadata : List Item)
    (top_k : Nat) (htop : 1 ≤ top_k) :
    (∀ r ∈ keyword_search scores metadata top_k, 0 < r.score) ∧
    (keyword_search scores metadata top_k).Pairwise
      (fun x y => y.score ≤ x.score) ∧
    (keyword_search scores metadata top_k).length ≤ top_k ∧
    (keyword_search scores metadata top_k).map Result.rank =
      List.range' 1 (keyword_search scores metadata top_k).length ∧
    (∀ r ∈ keyword_search scores metadata top_k, r.search_type = "keyword") := by
  rw [keyword_search]
  exact keywordLoop_invariant scores metadata top_k (argsortDesc scores) []
    (by simpa using htop)
    (argsortDesc_pairwise scores)
    (fun r hr => absurd hr (List.not_mem_nil r))
    List.Pairwise.nil
    (fun r hr => absurd hr (List.not_mem_nil r))
    rfl
    (fun r hr => absurd hr (List.not_mem_nil r))

/-- Witness for C3 (amended) at scores `[3, 1]`, a two-chunk corpus and
`top_k = 1`. -/
theorem keyword_search_spec_witness :
    (∀ r ∈ keyword_search [(3 : ℚ), 1] [wItemA, wItemB] 1, 0 < r.score) ∧
    (keyword_search [(3 : ℚ), 1] [wItemA, wItemB] 1).Pairwise
      (fun x y => y.score ≤ x.score) ∧
    (keyword_search [(3 : ℚ), 1] [wItemA, wItemB] 1).length ≤ 1 ∧
    (keyword_search [(3 : ℚ), 1] [wItemA, wItemB] 1).map Result.rank =
      List.range' 1 (keyword_search [(3 : ℚ), 1] [wItemA, wItemB] 1).length ∧
    (∀ r ∈ keyword_search [(3 : ℚ), 1] [wItemA, wItemB] 1,
      r.search_type = "keyword") :=
  keyword_search_spec [(3 : ℚ), 1] [wItemA, wItemB] 1 le_rfl

/-! ## C8: progress callback cannot change results -/

/-- C8: for a fixed engine state (corpus, dense index, BM25 scores and
rerank scorer as fixed functions) and fixed query and flags, running
`hybrid_search` with and without a progress sink returns the same result
list; the sink only affects the emitted message log. -/
theorem hybrid_search_callback_independent (e : Engine) (query : String)
    (top_k : Nat) (use_rerank use_bm25 : Bool) :
    (hybrid_search e query top_k use_rerank use_bm25 true).1 =
    (hybrid_search e query top_k use_rerank use_bm25 false).1 := by
  cases hv : vector_search e.faissSearch e.metadata query top_k with
  | none => simp [hybrid_search, hv]
  | some vr =>
    cases use_rerank <;> cases use_bm25 <;>
      simp [hybrid_search, hv, update_progress]
